import Mathlib

/-
Verification development for the `parprog` package (a parallel progress
display for a terminal, plus a bounded-concurrency dispatcher).

The Go code is shallowly embedded as follows:

* Timestamps are already truncated to whole seconds by the code
  (`time.Now().Truncate(time.Second)`), so time is modelled as an integer
  number of seconds (`Time := Int`); a `time.Duration` obtained by
  subtracting such timestamps is likewise a whole number of seconds
  (`Dur := Int`), with `time.Second` itself equal to `1`.
* `fmt.Sprintf` output is modelled structurally by the `Status` type:
  `Status.spin e c` stands for the non-done spinner line
  `"<e>    <c>   "`, and `Status.percent e p` stands for the line
  `"<e> <p>%"` (the done branches print the literal `100.0`).
  The float64 arithmetic `float64(pos) / w.sz` is modelled over `ℚ`.
* The `*os.File` handle inside `fileWrapper` is external I/O; the results
  of its `Stat()` and `Seek(0, SEEK_CUR)` calls are passed in explicitly
  as `Except String Int` arguments where the code performs them, and each
  status read reports (as a `Bool`) whether a `Seek` was attempted.
* Go slice expressions translate to `List.take` / `List.drop`; the
  out-of-range slice `v.readers[:i-1]` for `i = 0` is a runtime panic,
  modelled by `Viz.Remove` returning `none`.
* The mutex only serializes the operations; each locked critical section
  is modelled as one atomic function on the registry value.
-/

namespace Parprog

/-- Seconds-valued timestamps (the code truncates every timestamp to a
whole second before use). -/
abbrev Time := Int

/-- Seconds-valued durations (differences of truncated timestamps). -/
abbrev Dur := Int

/-- The spinner symbol set, Go string constant given as Wheel. -/
def Wheel : List Char := ['/', '-', '\\', '|']

/-- Structural model of one formatted status line. -/
inductive Status where
  | spin (elapsed : Dur) (sym : Char)
  | percent (elapsed : Dur) (pct : ℚ)
deriving DecidableEq

/-- The spinner progress source, struct spinner in status.go. -/
structure Spinner where
  w : Nat
  start : Time
  elapsed : Dur
deriving DecidableEq

/-- Constructor newSpinner: cycle index 0, start = now, elapsed unset. -/
def newSpinner (now : Time) : Spinner := ⟨0, now, 0⟩

/-- Index into the wheel, as the Go code's in-range byte index Wheel[w]. -/
def wheelSym (k : Nat) : Char := Wheel.get ⟨k % Wheel.length, Nat.mod_lt k (by decide)⟩

/-- Method (s *spinner) readStatus: if done, report frozen elapsed and
100 percent; otherwise advance the cycle index mod the wheel length and
report elapsed-so-far with the current symbol. Returns the new spinner
state alongside the status. -/
def Spinner.readStatus (s : Spinner) (now : Time) : Status × Spinner :=
  if s.elapsed ≠ 0 then (.percent s.elapsed 100, s)
  else
    let w2 := (s.w + 1) % Wheel.length
    (.spin (now - s.start) (wheelSym w2), { s with w := w2 })

/-- Method (s *spinner) done: record elapsed = now - start, substituting
one second when the difference is zero. -/
def Spinner.done (s : Spinner) (now : Time) : Spinner :=
  let e := now - s.start
  { s with elapsed := if e = 0 then 1 else e }

/-- The offset-tracking progress source, struct fileWrapper in status.go.
The wrapped `*os.File` is external; its seek results are supplied at each
read. `sz` is float64(info.Size()) / 100.0, modelled over ℚ. -/
structure FileWrapper where
  sz : ℚ
  start : Time
  elapsed : Dur
deriving DecidableEq

/-- Constructor wrapFile: fails iff the Stat call fails; on success stores
size / 100 and start = now. -/
def wrapFile (statResult : Except String Int) (now : Time) : Except String FileWrapper :=
  match statResult with
  | .error e => .error e
  | .ok size => .ok ⟨(size : ℚ) / 100, now, 0⟩

/-- Method (w *fileWrapper) done: record elapsed = now - start, with no
zero clamp (unlike the spinner). -/
def FileWrapper.done (w : FileWrapper) (now : Time) : FileWrapper :=
  { w with elapsed := now - w.start }

/-- Method (w *fileWrapper) readStatus: if done, report frozen elapsed and
100 percent without touching the file; otherwise seek for the current
offset — on failure set elapsed = now - start and report it with 100
percent, on success report elapsed-so-far and pos / sz. The Bool records
whether a seek was attempted. -/
def FileWrapper.readStatus (w : FileWrapper) (now : Time) (seek : Except String Int) :
    Status × FileWrapper × Bool :=
  if w.elapsed ≠ 0 then (.percent w.elapsed 100, w, false)
  else
    match seek with
    | .error _ =>
      let e := now - w.start
      (.percent e 100, { w with elapsed := e }, true)
    | .ok pos => (.percent (now - w.start) ((pos : ℚ) / w.sz), w, true)

/-- The readStatusInterface: a value is either a spinner or a file
wrapper. -/
inductive View where
  | spin (s : Spinner)
  | file (w : FileWrapper)
deriving DecidableEq

/-- Dynamic dispatch of done() through the interface. -/
def View.done (v : View) (now : Time) : View :=
  match v with
  | .spin s => .spin (s.done now)
  | .file w => .file (w.done now)

/-- Dynamic dispatch of readStatus() through the interface; a spinner
never touches the file, so its seek flag is false. -/
def View.readStatus (v : View) (now : Time) (seek : Except String Int) :
    Status × View × Bool :=
  match v with
  | .spin s =>
    let r := s.readStatus now
    (r.1, .spin r.2, false)
  | .file w =>
    let r := w.readStatus now seek
    (r.1, .file r.2.1, r.2.2)

/-- The elapsed field of either variant. -/
def View.elapsed (v : View) : Dur :=
  match v with
  | .spin s => s.elapsed
  | .file w => w.elapsed

/-- A source is in its terminal state exactly when its elapsed field is
non-zero (both readStatus methods branch on elapsed != 0). -/
def View.isDone (v : View) : Prop := v.elapsed ≠ 0

instance (v : View) : Decidable v.isDone :=
  inferInstanceAs (Decidable (v.elapsed ≠ 0))

/-- One registry entry, struct readInfo (fields Name, View, Error). -/
structure ReadInfo where
  name : String
  view : View
  error : Option String
deriving DecidableEq

/-- The registry, struct Viz; only the entry list is modelled (the mutex,
ticker, quit channel and termbox screen are external). -/
structure Viz where
  readers : List ReadInfo
deriving DecidableEq

/-- The error message attached to a gzip.Reader handle in Viz.Add. -/
def gzipErr : String := "cannot inspect gzip.Reader, use wrapped Reader"

/-- The dynamic type of the handle passed to Viz.Add: a *gzip.Reader, an
*os.File (carrying the result its Stat call will produce), or anything
else. -/
inductive Handle where
  | gzipReader
  | file (statResult : Except String Int)
  | other

/-- The readInfo built by Viz.Add's type switch for a given handle. -/
def Viz.addInfo (name : String) (rdr : Handle) (now : Time) : ReadInfo :=
  match rdr with
  | .gzipReader => ⟨name, .spin (newSpinner now), some gzipErr⟩
  | .file st =>
    match wrapFile st now with
    | .ok fw => ⟨name, .file fw, none⟩
    | .error e => ⟨name, .spin (newSpinner now), some e⟩
  | .other => ⟨name, .spin (newSpinner now), none⟩

/-- Method (v *Viz) Add: classify the handle and append the resulting
entry (the entry is appended even when construction failed). -/
def Viz.Add (v : Viz) (name : String) (rdr : Handle) (now : Time) : Viz :=
  ⟨v.readers ++ [Viz.addInfo name rdr now]⟩

/-- The loop body of Viz.Complete: update the first entry with matching
name (mark its view done and overwrite its error), leave the rest alone. -/
def completeList (name : String) (err : Option String) (now : Time) :
    List ReadInfo → List ReadInfo
  | [] => []
  | x :: rest =>
    if x.name = name then { x with view := x.view.done now, error := err } :: rest
    else x :: completeList name err now rest

/-- Method (v *Viz) Complete: mark the first matching reader done and
record the provided error; no-op when the name is absent. -/
def Viz.Complete (v : Viz) (name : String) (err : Option String) (now : Time) : Viz :=
  ⟨completeList name err now v.readers⟩

/-- Method (v *Viz) Remove, translated slice-for-slice: find the first
index i with matching name; when i is the last index the code returns
readers[:i-1], which for i = 0 is the out-of-range slice readers[:-1]
(a runtime panic, modelled as none) and otherwise drops BOTH entry i-1
and entry i; when i is not last it returns readers[:i] + readers[i+1:].
No-op when the name is absent. -/
def Viz.Remove (v : Viz) (name : String) : Option Viz :=
  match v.readers.findIdx? (fun x => x.name = name) with
  | none => some v
  | some i =>
    if i = v.readers.length - 1 then
      if i = 0 then none
      else some ⟨v.readers.take (i - 1)⟩
    else some ⟨v.readers.take i ++ v.readers.drop (i + 1)⟩

/-- First entry with the given name (the lookup order Complete uses). -/
def Viz.entry (v : Viz) (name : String) : Option ReadInfo :=
  v.readers.find? (fun x => x.name = name)

/-- State of a spinner after k consecutive status queries (the redraw
loop calling readStatus k times while the spinner is on screen). -/
def spinIter (s : Spinner) (now : Time) : Nat → Spinner
  | 0 => s
  | k + 1 => ((spinIter s now k).readStatus now).2

/-- Status line produced by query number k (zero-based) in such a run. -/
def spinStatusAt (s : Spinner) (now : Time) (k : Nat) : Status :=
  ((spinIter s now k).readStatus now).1

/-
BoundedExec (the bounded dispatcher) is concurrent code, modelled as a
small-step transition system. A worker goroutine is idle (blocked on the
channel receive), busy running nameFunc on one item, or exited (returned
after the channel was closed and drained). The buffered channel of
capacity n is the queue list; a send is enabled while the buffer has
room (for n = 0 no worker can rendezvous either, since receives are
modelled as taking from the buffer and there are no workers). The main
goroutine's program order — all sends, then close, then Wait — is
captured by the step preconditions: close fires only once every name has
been sent, and BoundedExec returns exactly in the states where all
workers have exited.
-/

/-- Status of one worker goroutine spawned by BoundedExec. -/
inductive WStatus where
  | idle
  | busy (item : String)
  | exited
deriving DecidableEq

/-- A global state of a running BoundedExec call. -/
structure DState where
  pending : List String
  queue : List String
  closed : Bool
  workers : List WStatus
  done : List String
deriving DecidableEq

/-- Initial state of BoundedExec n names: nothing sent, empty channel,
n idle workers, nothing processed. -/
def dinit (n : Nat) (names : List String) : DState :=
  ⟨names, [], false, List.replicate n .idle, []⟩

/-- One scheduler step of BoundedExec with concurrency n. -/
inductive DStep (n : Nat) : DState → DState → Prop where
  | send (s : DState) (x : String) (rest : List String)
      (hp : s.pending = x :: rest) (hq : s.queue.length < n) :
      DStep n s { s with pending := rest, queue := s.queue ++ [x] }
  | close (s : DState) (hp : s.pending = []) (hc : s.closed = false) :
      DStep n s { s with closed := true }
  | recv (s : DState) (i : Nat) (x : String) (rest : List String)
      (hw : s.workers[i]? = some .idle) (hq : s.queue = x :: rest) :
      DStep n s { s with queue := rest, workers := s.workers.set i (.busy x) }
  | finish (s : DState) (i : Nat) (x : String)
      (hw : s.workers[i]? = some (.busy x)) :
      DStep n s { s with workers := s.workers.set i .idle, done := s.done ++ [x] }
  | wexit (s : DState) (i : Nat)
      (hw : s.workers[i]? = some .idle) (hc : s.closed = true) (hq : s.queue = []) :
      DStep n s { s with workers := s.workers.set i .exited }

/-- States reachable by a BoundedExec n names call. -/
inductive DReach (n : Nat) (names : List String) : DState → Prop where
  | init : DReach n names (dinit n names)
  | step (s s2 : DState) : DReach n names s → DStep n s s2 → DReach n names s2

/-- The item a worker is currently running, if any. -/
def busyItem : WStatus → Option String
  | .busy x => some x
  | _ => none

/-- Items currently being run by some worker. -/
def DState.busyItems (s : DState) : List String := s.workers.filterMap busyItem

/-- Number of concurrently active nameFunc invocations. -/
def DState.busyCount (s : DState) : Nat := s.busyItems.length

/-- All workers have returned; wg.Wait unblocks and BoundedExec returns
exactly in such states. -/
def DState.allExited (s : DState) : Prop := ∀ w ∈ s.workers, w = WStatus.exited

instance (s : DState) : Decidable s.allExited :=
  inferInstanceAs (Decidable (∀ w ∈ s.workers, w = WStatus.exited))

/-- Inductive invariant of the dispatcher: the worker count is constant;
names are conserved between the unsent, buffered, running and finished
stages; the channel is closed only after every name was sent; and once
some worker has exited the channel is closed and drained for good. -/
def DInv (n : Nat) (names : List String) (s : DState) : Prop :=
  s.workers.length = n ∧
  ((s.pending : Multiset String) + ↑s.queue + ↑s.busyItems + ↑s.done = ↑names) ∧
  (s.closed = true → s.pending = []) ∧
  (WStatus.exited ∈ s.workers → s.closed = true ∧ s.queue = [] ∧ s.pending = [])

lemma busyItem_replicate_idle (n : Nat) :
    List.filterMap busyItem (List.replicate n WStatus.idle) = [] := by
  induction n with
  | zero => rfl
  | succ k ih => simp [List.replicate_succ, List.filterMap_cons, busyItem, ih]

lemma multiset_busyItems_set (l : List WStatus) (i : Nat) (a b : WStatus)
    (h : l[i]? = some a) :
    (↑((l.set i b).filterMap busyItem) : Multiset String) + ↑(busyItem a).toList
      = ↑(l.filterMap busyItem) + ↑(busyItem b).toList := by
  rcases List.getElem?_eq_some.mp h with ⟨hlt, hget⟩
  have hdec : l = l.take i ++ a :: l.drop (i + 1) := by
    conv_lhs => rw [← List.take_append_drop i l]
    rw [List.drop_eq_getElem_cons hlt, hget]
  have hsetd : l.set i b = l.take i ++ b :: l.drop (i + 1) :=
    List.set_eq_take_cons_drop b hlt
  rw [hsetd]
  conv_rhs => rw [hdec]
  cases a <;> cases b <;>
    simp only [List.filterMap_append, List.filterMap_cons, busyItem, Option.toList] <;>
    simp only [← Multiset.coe_add, ← Multiset.cons_coe, ← Multiset.singleton_add] <;>
    abel

lemma dinv_init (n : Nat) (names : List String) : DInv n names (dinit n names) := by
  refine ⟨by simp [dinit], ?_, ?_, ?_⟩
  · simp [dinit, DState.busyItems, busyItem_replicate_idle]
  · intro hc
    simp [dinit] at hc
  · intro hmem
    have := List.eq_of_mem_replicate hmem
    exact absurd this (by decide)

lemma dinv_step {n : Nat} {names : List String} {s s2 : DState}
    (hinv : DInv n names s) (hst : DStep n s s2) : DInv n names s2 := by
  obtain ⟨hlen, hcons, hcp, hex⟩ := hinv
  cases hst with
  | send x rest hp hq =>
    refine ⟨hlen, ?_, ?_, ?_⟩
    · have h2 := hcons
      rw [hp] at h2
      simp only [DState.busyItems] at h2 ⊢
      rw [← h2]
      simp only [← Multiset.coe_add, ← Multiset.cons_coe, ← Multiset.singleton_add]
      abel
    · intro hc
      have := hcp hc
      rw [hp] at this
      simp at this
    · intro hmem
      obtain ⟨h1, h2, h3⟩ := hex hmem
      rw [hp] at h3
      simp at h3
  | close hp hc =>
    refine ⟨hlen, hcons, fun _ => hp, ?_⟩
    intro hmem
    obtain ⟨h1, h2, h3⟩ := hex hmem
    exact ⟨rfl, h2, h3⟩
  | recv i x rest hw hq =>
    refine ⟨by simpa using hlen, ?_, fun hc => hcp hc, ?_⟩
    · have h2 := hcons
      rw [hq] at h2
      have hb := multiset_busyItems_set s.workers i .idle (.busy x) hw
      simp only [busyItem, Option.toList_none, Option.toList_some,
        Multiset.coe_nil, add_zero] at hb
      simp only [DState.busyItems] at h2 ⊢
      rw [hb, ← h2]
      simp only [← Multiset.coe_add, ← Multiset.cons_coe, ← Multiset.singleton_add]
      abel
    · intro hmem
      rcases List.mem_or_eq_of_mem_set hmem with hmem2 | heq
      · obtain ⟨h1, h2, h3⟩ := hex hmem2
        rw [hq] at h2
        simp at h2
      · simp at heq
  | finish i x hw =>
    refine ⟨by simpa using hlen, ?_, fun hc => hcp hc, ?_⟩
    · have hb := multiset_busyItems_set s.workers i (.busy x) .idle hw
      simp only [busyItem, Option.toList_none, Option.toList_some,
        Multiset.coe_nil, add_zero] at hb
      simp only [DState.busyItems] at hcons ⊢
      rw [← hcons, ← hb]
      simp only [← Multiset.coe_add, ← Multiset.cons_coe, ← Multiset.singleton_add]
      abel
    · intro hmem
      rcases List.mem_or_eq_of_mem_set hmem with hmem2 | heq
      · exact hex hmem2
      · exact absurd heq (by decide)
  | wexit i hw hc hq =>
    refine ⟨by simpa using hlen, ?_, fun _ => hcp hc, fun _ => ⟨hc, hq, hcp hc⟩⟩
    have hb := multiset_busyItems_set s.workers i .idle .exited hw
    simp only [busyItem, Option.toList_none, Multiset.coe_nil, add_zero] at hb
    simp only [DState.busyItems] at hcons ⊢
    rw [hb, ← hcons]

lemma dreach_dinv (n : Nat) (names : List String) (s : DState)
    (h : DReach n names s) : DInv n names s := by
  induction h with
  | init => exact dinv_init n names
  | step s s2 hr hst ih => exact dinv_step ih hst

lemma dstep_zero_stuck (s s2 : DState) (hp : s.pending ≠ []) (hw : s.workers = []) :
    ¬ DStep 0 s s2 := by
  intro hst
  cases hst with
  | send x rest hp2 hq => exact Nat.not_lt_zero _ hq
  | close hp2 hc => exact hp hp2
  | recv i x rest hw2 hq => rw [hw] at hw2; simp at hw2
  | finish i x hw2 => rw [hw] at hw2; simp at hw2
  | wexit i hw2 hc hq => rw [hw] at hw2; simp at hw2

lemma Spinner.done_elapsed_ne (s : Spinner) (now : Time) : (s.done now).elapsed ≠ 0 := by
  unfold Spinner.done
  by_cases h : now - s.start = 0 <;> simp [h]

lemma View.readStatus_frozen (v : View) (now : Time) (seek : Except String Int)
    (h : v.elapsed ≠ 0) : v.readStatus now seek = (.percent v.elapsed 100, v, false) := by
  cases v with
  | spin s =>
    simp only [View.elapsed] at h
    simp [View.readStatus, Spinner.readStatus, View.elapsed, h]
  | file w =>
    simp only [View.elapsed] at h
    simp [View.readStatus, FileWrapper.readStatus, View.elapsed, h]

lemma addInfo_name (name : String) (rdr : Handle) (now : Time) :
    (Viz.addInfo name rdr now).name = name := by
  cases rdr with
  | file st => cases st <;> rfl
  | gzipReader => rfl
  | other => rfl

lemma completeList_append_fresh (name : String) (err : Option String) (now : Time)
    (l : List ReadInfo) (x : ReadInfo) (hl : ∀ y ∈ l, y.name ≠ name)
    (hx : x.name = name) :
    completeList name err now (l ++ [x])
      = l ++ [{ x with view := x.view.done now, error := err }] := by
  induction l with
  | nil => simp [completeList, hx]
  | cons a t ih =>
    have ha : a.name ≠ name := hl a (by simp)
    simp only [List.cons_append, completeList, if_neg ha]
    exact congrArg (List.cons a) (ih (fun y hy => hl y (by simp [hy])))

lemma find?_append_last (l : List ReadInfo) (x : ReadInfo) (name : String)
    (hl : ∀ y ∈ l, y.name ≠ name) (hx : x.name = name) :
    (l ++ [x]).find? (fun y => y.name = name) = some x := by
  induction l with
  | nil => simp [List.find?, hx]
  | cons a t ih =>
    have ha : a.name ≠ name := hl a (by simp)
    rw [List.cons_append, List.find?_cons_of_neg _ (by simpa using ha)]
    exact ih (fun y hy => hl y (by simp [hy]))

/-- C1 (code bug): on a registry holding entries named a then b, Remove b
takes the last-element branch readers[:i-1] with i = 1 and returns the
empty registry, deleting the non-matching entry a along with b instead of
leaving a alone. -/
theorem remove_last_entry_drops_predecessor :
    Viz.Remove ⟨[⟨"a", .spin (newSpinner 0), none⟩, ⟨"b", .spin (newSpinner 0), none⟩]⟩ "b"
      = some ⟨[]⟩ ∧
    Viz.Remove ⟨[⟨"a", .spin (newSpinner 0), none⟩, ⟨"b", .spin (newSpinner 0), none⟩]⟩ "b"
      ≠ some ⟨[⟨"a", .spin (newSpinner 0), none⟩]⟩ := by
  constructor
  · decide
  · decide

/-- C2: on a registry holding exactly one entry, whose name matches, Remove
takes the last-element branch with i = 0 and evaluates the out-of-range
slice readers[:-1] — a runtime panic, modelled as none. -/
theorem remove_singleton_panics (info : ReadInfo) (nm : String) (h : info.name = nm) :
    Viz.Remove ⟨[info]⟩ nm = none := by
  simp [Viz.Remove, List.findIdx?_cons, h]

/-- C2 witness: the panic at a concrete one-entry registry. -/
theorem remove_singleton_panics_witness :
    Viz.Remove ⟨[⟨"a", .spin (newSpinner 0), none⟩]⟩ "a" = none :=
  remove_singleton_panics ⟨"a", .spin (newSpinner 0), none⟩ "a" rfl

/-- C3 (counterexample): the offset tracker's markDone does not clamp: done
called in the same second as start leaves elapsed = 0 and the source is not
in its done state, contradicting the claim for the OffsetTracker variant. -/
theorem fileWrapper_done_no_clamp_cex :
    ((View.file ⟨2, 5, 0⟩).done 5).elapsed = 0 ∧
    ¬ ((View.file ⟨2, 5, 0⟩).done 5).isDone := by
  constructor
  · decide
  · decide

/-- C3 (amended): the spinner's markDone records now - start clamped to one
second when the difference is zero, so a spinner is always done afterwards;
the offset tracker's markDone records now - start with no clamp, so it is
done afterwards exactly when now differs from start. -/
theorem markDone_clamp_amended (s : Spinner) (w : FileWrapper) (now : Time) :
    ((s.done now).elapsed = if now - s.start = 0 then 1 else now - s.start) ∧
    (View.spin (s.done now)).isDone ∧
    ((w.done now).elapsed = now - w.start) ∧
    ((View.file (w.done now)).isDone ↔ now - w.start ≠ 0) := by
  refine ⟨rfl, ?_, rfl, ?_⟩
  · exact Spinner.done_elapsed_ne s now
  · simp [FileWrapper.done, View.isDone, View.elapsed]

/-- C3 witness: the amended statement at a concrete spinner, tracker and
instant. -/
theorem markDone_clamp_amended_witness :
    (((⟨0, 5, 0⟩ : Spinner).done 5).elapsed = if (5 : Time) - 5 = 0 then 1 else 5 - 5) ∧
    (View.spin ((⟨0, 5, 0⟩ : Spinner).done 5)).isDone ∧
    (((⟨2, 5, 0⟩ : FileWrapper).done 5).elapsed = (5 : Time) - 5) ∧
    ((View.file ((⟨2, 5, 0⟩ : FileWrapper).done 5)).isDone ↔ (5 : Time) - 5 ≠ 0) :=
  markDone_clamp_amended ⟨0, 5, 0⟩ ⟨2, 5, 0⟩ 5

/-- C5: Add always appends exactly one entry, and the type switch classifies
the handle: gzip readers get a spinner with the cannot-inspect error, files
get an offset tracker on successful stat and a spinner carrying the stat
error otherwise, and any other handle gets a spinner with no error. -/
theorem add_appends_classified (v : Viz) (name : String) (rdr : Handle) (now : Time) :
    ((v.Add name rdr now).readers = v.readers ++ [Viz.addInfo name rdr now]) ∧
    ((v.Add name rdr now).readers.length = v.readers.length + 1) ∧
    (Viz.addInfo name .gzipReader now = ⟨name, .spin (newSpinner now), some gzipErr⟩) ∧
    (∀ size : Int, Viz.addInfo name (.file (.ok size)) now
        = ⟨name, .file ⟨(size : ℚ) / 100, now, 0⟩, none⟩) ∧
    (∀ e : String, Viz.addInfo name (.file (.error e)) now
        = ⟨name, .spin (newSpinner now), some e⟩) ∧
    (Viz.addInfo name .other now = ⟨name, .spin (newSpinner now), none⟩) := by
  refine ⟨rfl, by simp [Viz.Add], rfl, fun size => rfl, fun e => rfl, rfl⟩

/-- C4 (counterexample): Add of a 200-byte file at second 0 followed by
Complete in the same second leaves the tracker with elapsed = 0, so the
entry is not terminal and a later query still seeks and reports 25
percent rather than the frozen 100. -/
theorem complete_same_second_not_terminal_cex :
    (((Viz.mk []).Add "a" (.file (.ok 200)) 0).Complete "a" none 0)
        = Viz.mk [⟨"a", .file ⟨2, 0, 0⟩, none⟩] ∧
    (View.file ⟨2, 0, 0⟩).readStatus 9 (.ok 50)
        = (Status.percent 9 25, View.file ⟨2, 0, 0⟩, true) ∧
    ¬ (View.file ⟨2, 0, 0⟩).isDone := by
  refine ⟨?_, ?_, by decide⟩
  · simp [Viz.Add, Viz.Complete, Viz.addInfo, wrapFile, completeList, View.done,
      FileWrapper.done]
    norm_num
  · simp [View.readStatus, FileWrapper.readStatus]
    norm_num

/-- C4 (amended): marking any source done freezes it — provided the source
is a spinner, or an offset tracker whose done-instant differs from its
start second — after which every query returns the frozen elapsed and 100
percent without touching the file; and Add-then-Complete on a fresh name
stores exactly the done view with the caller's error in that entry. An
offset tracker completed in its start second has elapsed 0 and stays
non-terminal. -/
theorem complete_terminal_amended :
    (∀ (vw : View) (t1 : Time),
      (match vw with
       | View.spin _ => True
       | View.file w => t1 - w.start ≠ 0) →
      ((vw.done t1).isDone ∧
       ∀ (now : Time) (seek : Except String Int),
         (vw.done t1).readStatus now seek
           = (Status.percent (vw.done t1).elapsed 100, vw.done t1, false))) ∧
    (∀ (v : Viz) (name : String) (rdr : Handle) (err : Option String) (t0 t1 : Time),
      (∀ y ∈ v.readers, y.name ≠ name) →
      ((v.Add name rdr t0).Complete name err t1).entry name
        = some ⟨name, (Viz.addInfo name rdr t0).view.done t1, err⟩) := by
  constructor
  · intro vw t1 hcond
    have hne : (vw.done t1).elapsed ≠ 0 := by
      cases vw with
      | spin s => exact Spinner.done_elapsed_ne s t1
      | file w => simpa [View.done, View.elapsed, FileWrapper.done] using hcond
    exact ⟨hne, fun now seek => View.readStatus_frozen _ now seek hne⟩
  · intro v name rdr err t0 t1 hfresh
    have hn : (Viz.addInfo name rdr t0).name = name := addInfo_name name rdr t0
    show Viz.entry ⟨completeList name err t1 (v.readers ++ [Viz.addInfo name rdr t0])⟩ name = _
    rw [completeList_append_fresh name err t1 v.readers _ hfresh hn]
    unfold Viz.entry
    rw [find?_append_last _ _ _ hfresh (by simpa using hn)]
    simp [hn]

/-- C4 witness: the amended statement at a tracker completed one second
after start, and at a concrete Add-then-Complete sequence. -/
theorem complete_terminal_amended_witness :
    ((View.file ⟨2, 0, 0⟩).done 5).isDone ∧
    ((View.file ⟨2, 0, 0⟩).done 5).readStatus 9 (.ok 1)
      = (Status.percent ((View.file ⟨2, 0, 0⟩).done 5).elapsed 100,
         (View.file ⟨2, 0, 0⟩).done 5, false) ∧
    (((Viz.mk []).Add "a" Handle.other 0).Complete "a" (some "boom") 3).entry "a"
      = some ⟨"a", (Viz.addInfo "a" Handle.other 0).view.done 3, some "boom"⟩ := by
  have h1 := complete_terminal_amended.1 (View.file ⟨2, 0, 0⟩) 5 (by decide)
  exact ⟨h1.1, h1.2 9 (.ok 1),
    complete_terminal_amended.2 ⟨[]⟩ "a" Handle.other (some "boom") 0 3 (by simp)⟩

/-- C6 (counterexample): a seek failure in the same second as start records
elapsed = 0, so the tracker does not reach its terminal state: the very
next query seeks again (flag true) and reports 25 percent, not the frozen
100. -/
theorem offset_read_error_same_second_cex :
    FileWrapper.readStatus ⟨2, 0, 0⟩ 0 (.error "io")
        = (Status.percent 0 100, ⟨2, 0, 0⟩, true) ∧
    FileWrapper.readStatus ⟨2, 0, 0⟩ 9 (.ok 50)
        = (Status.percent 9 25, ⟨2, 0, 0⟩, true) := by
  refine ⟨by decide, ?_⟩
  simp [FileWrapper.readStatus]
  norm_num

/-- C6 (amended): on seek failure a non-done tracker records
elapsed = now - start and that call reports 100 percent (no error reaches
the caller — readStatus is total); the state is frozen for all later
queries, with no further seek, provided now differs from start. When the
failure happens in the start second, elapsed stays 0 and later queries
seek again. -/
theorem offset_read_error_amended (w : FileWrapper) (now : Time) (msg : String)
    (h : w.elapsed = 0) :
    w.readStatus now (.error msg)
        = (Status.percent (now - w.start) 100, { w with elapsed := now - w.start }, true) ∧
    (now - w.start ≠ 0 →
      ∀ (now2 : Time) (seek : Except String Int),
        ({ w with elapsed := now - w.start } : FileWrapper).readStatus now2 seek
          = (Status.percent (now - w.start) 100, { w with elapsed := now - w.start }, false)) := by
  constructor
  · simp [FileWrapper.readStatus, h]
  · intro hne now2 seek
    simp [FileWrapper.readStatus, hne]

/-- C6 witness: a failing seek five seconds in freezes the tracker; the
frozen tracker ignores a later successful seek. -/
theorem offset_read_error_amended_witness :
    FileWrapper.readStatus ⟨2, 0, 0⟩ 5 (.error "io")
        = (Status.percent 5 100, ⟨2, 0, 5⟩, true) ∧
    FileWrapper.readStatus ⟨2, 0, 5⟩ 9 (.ok 50)
        = (Status.percent 5 100, ⟨2, 0, 5⟩, false) := by
  have h := offset_read_error_amended ⟨2, 0, 0⟩ 5 "io" rfl
  exact ⟨h.1, h.2 (by decide) 9 (.ok 50)⟩

lemma spinIter_props (s : Spinner) (now : Time) (h : s.elapsed = 0) (k : Nat) :
    (spinIter s now k).elapsed = 0 ∧ (spinIter s now k).start = s.start := by
  induction k with
  | zero => exact ⟨h, rfl⟩
  | succ k ih => simp [spinIter, Spinner.readStatus, ih.1, ih.2]

lemma spinIter_succ_w (t : Spinner) (now : Time) (ht : t.elapsed = 0) :
    ((t.readStatus now).2).w = (t.w + 1) % 4 := by
  simp [Spinner.readStatus, ht, Wheel]

lemma spinStatus_step (t : Spinner) (now : Time) (ht : t.elapsed = 0) :
    (t.readStatus now).1 = .spin (now - t.start) (wheelSym ((t.w + 1) % 4)) := by
  simp [Spinner.readStatus, ht, Wheel]

lemma spinIter_w (s : Spinner) (now : Time) (h : s.elapsed = 0) (k : Nat) :
    (spinIter s now (k + 1)).w = (s.w + k + 1) % 4 := by
  induction k with
  | zero =>
    show ((s.readStatus now).2).w = (s.w + 0 + 1) % 4
    rw [spinIter_succ_w s now h]
  | succ k ih =>
    have hp := (spinIter_props s now h (k + 1)).1
    show (((spinIter s now (k + 1)).readStatus now).2).w = _
    rw [spinIter_succ_w _ now hp, ih]
    omega

lemma wheelSym_congr (i j : Nat) (h : i % 4 = j % 4) : wheelSym i = wheelSym j := by
  unfold wheelSym
  congr 1
  exact Fin.ext h

lemma wheelSym_ne (i j : Nat) (h : i % 4 ≠ j % 4) : wheelSym i ≠ wheelSym j := by
  intro hc
  apply h
  have hnd : Wheel.Nodup := by decide
  have h2 := (List.Nodup.get_inj_iff hnd).mp hc
  exact congrArg Fin.val h2

lemma spinStatusAt_eq (s : Spinner) (now : Time) (h : s.elapsed = 0) (k : Nat) :
    spinStatusAt s now k = .spin (now - s.start) (wheelSym (s.w + k + 1)) := by
  cases k with
  | zero =>
    show (s.readStatus now).1 = _
    rw [spinStatus_step s now h, wheelSym_congr ((s.w + 1) % 4) (s.w + 0 + 1) (by omega)]
  | succ k =>
    have hp := spinIter_props s now h (k + 1)
    show ((spinIter s now (k + 1)).readStatus now).1 = _
    rw [spinStatus_step _ now hp.1, hp.2, spinIter_w s now h k,
      wheelSym_congr (((s.w + k + 1) % 4 + 1) % 4) (s.w + (k + 1) + 1) (by omega)]

/-- C7: while a spinner is not done, each status query advances the cycle
index by one modulo the wheel length, the displayed status repeats with
period exactly 4, and any 4 consecutive queries show pairwise distinct
symbols. -/
theorem spinner_period_four (s : Spinner) (now : Time) (h : s.elapsed = 0) (k : Nat) :
    ((spinIter s now (k + 1)).w = ((spinIter s now k).w + 1) % Wheel.length) ∧
    spinStatusAt s now (k + 4) = spinStatusAt s now k ∧
    spinStatusAt s now k ≠ spinStatusAt s now (k + 1) ∧
    spinStatusAt s now k ≠ spinStatusAt s now (k + 2) ∧
    spinStatusAt s now k ≠ spinStatusAt s now (k + 3) ∧
    spinStatusAt s now (k + 1) ≠ spinStatusAt s now (k + 2) ∧
    spinStatusAt s now (k + 1) ≠ spinStatusAt s now (k + 3) ∧
    spinStatusAt s now (k + 2) ≠ spinStatusAt s now (k + 3) := by
  have hp := spinIter_props s now h k
  refine ⟨?_, ?_, ?_, ?_, ?_, ?_, ?_, ?_⟩
  · show (((spinIter s now k).readStatus now).2).w = _
    rw [spinIter_succ_w _ now hp.1]
    rfl
  · rw [spinStatusAt_eq s now h, spinStatusAt_eq s now h,
      wheelSym_congr (s.w + (k + 4) + 1) (s.w + k + 1) (by omega)]
  all_goals
    simp only [spinStatusAt_eq s now h, ne_eq, Status.spin.injEq, not_and]
    intro _
    exact wheelSym_ne _ _ (by omega)

/-- C7 witness: the period-4 statement for a fresh spinner at k = 0. -/
theorem spinner_period_four_witness :
    ((spinIter (newSpinner 0) 0 1).w = ((spinIter (newSpinner 0) 0 0).w + 1) % Wheel.length) ∧
    spinStatusAt (newSpinner 0) 0 4 = spinStatusAt (newSpinner 0) 0 0 ∧
    spinStatusAt (newSpinner 0) 0 0 ≠ spinStatusAt (newSpinner 0) 0 1 ∧
    spinStatusAt (newSpinner 0) 0 0 ≠ spinStatusAt (newSpinner 0) 0 2 ∧
    spinStatusAt (newSpinner 0) 0 0 ≠ spinStatusAt (newSpinner 0) 0 3 ∧
    spinStatusAt (newSpinner 0) 0 1 ≠ spinStatusAt (newSpinner 0) 0 2 ∧
    spinStatusAt (newSpinner 0) 0 1 ≠ spinStatusAt (newSpinner 0) 0 3 ∧
    spinStatusAt (newSpinner 0) 0 2 ≠ spinStatusAt (newSpinner 0) 0 3 :=
  spinner_period_four (newSpinner 0) 0 rfl 0

/-- C8: a status query on a freshly wrapped tracker over total size S > 0
that reads position p reports the percentage p / (S / 100), and at p = S
that percentage is exactly 100. -/
theorem offset_percentage (size pos : Int) (t now : Time) (fw : FileWrapper)
    (hsz : 0 < size) (hw : wrapFile (.ok size) t = .ok fw) :
    (fw.readStatus now (.ok pos)).1
        = Status.percent (now - t) ((pos : ℚ) / ((size : ℚ) / 100)) ∧
    (pos = size → (fw.readStatus now (.ok pos)).1 = Status.percent (now - t) 100) := by
  have hfw : fw = ⟨(size : ℚ) / 100, t, 0⟩ := by
    have := hw
    simp only [wrapFile, Except.ok.injEq] at this
    exact this.symm
  subst hfw
  constructor
  · simp [FileWrapper.readStatus]
  · intro hps
    subst hps
    have hne : (pos : ℚ) ≠ 0 := Int.cast_ne_zero.mpr (by omega)
    have h100 : (pos : ℚ) / ((pos : ℚ) / 100) = 100 := by
      field_simp
    simp [FileWrapper.readStatus, h100]

/-- C8 witness: a 200-byte tracker read at position 200 reports exactly
100 percent. -/
theorem offset_percentage_witness :
    ((⟨2, 0, 0⟩ : FileWrapper).readStatus 7 (.ok 200)).1
        = Status.percent 7 ((200 : ℚ) / ((200 : ℚ) / 100)) ∧
    ((⟨2, 0, 0⟩ : FileWrapper).readStatus 7 (.ok 200)).1 = Status.percent 7 100 := by
  have h := offset_percentage 200 200 0 7 ⟨2, 0, 0⟩ (by decide)
    (by simp [wrapFile]; norm_num)
  exact ⟨h.1, h.2 rfl⟩

/-- C9 (counterexample): BoundedExec neither rejects nor clamps n = 0: with
no workers and the non-empty item list a, no step is enabled from the
initial state — the send blocks forever — and nothing is ever dispatched. -/
theorem boundedExec_no_clamp_cex :
    (dinit 0 ["a"]).pending = ["a"] ∧ (dinit 0 ["a"]).done = [] ∧
    ¬ ∃ s2, DStep 0 (dinit 0 ["a"]) s2 := by
  refine ⟨rfl, rfl, ?_⟩
  rintro ⟨s2, hst⟩
  exact dstep_zero_stuck _ s2 (by decide) rfl hst

/-- C9 (amended): BoundedExec does not reject or clamp n = 0 to 1: for a
non-empty item sequence the only reachable state is the initial one — no
send, receive or exit step is ever enabled, no item is dispatched, and the
call blocks permanently (for n < 0 the channel allocation itself panics). -/
theorem boundedExec_zero_blocks (names : List String) (s : DState)
    (hne : names ≠ []) (h : DReach 0 names s) :
    s = dinit 0 names ∧ s.done = [] ∧ ∀ s2, ¬ DStep 0 s s2 := by
  induction h with
  | init =>
    refine ⟨rfl, rfl, fun s2 => dstep_zero_stuck _ s2 ?_ rfl⟩
    simpa [dinit] using hne
  | step s s2 hr hst ih => exact absurd hst (ih.2.2 s2)

/-- C9 witness: the amended statement at n = 0 with one item. -/
theorem boundedExec_zero_blocks_witness :
    (dinit 0 ["a"]).done = [] ∧ ¬ DStep 0 (dinit 0 ["a"]) (dinit 0 ["a"]) := by
  have h := boundedExec_zero_blocks ["a"] (dinit 0 ["a"]) (by simp) DReach.init
  exact ⟨h.2.1, h.2.2 (dinit 0 ["a"])⟩

/-- C10: a BoundedExec call with n ≥ 1 workers keeps exactly n workers
throughout, never has more than n nameFunc invocations running at once,
and whenever all workers have exited — the only states in which wg.Wait
lets the call return — the finished invocations are exactly the input
names, one invocation per name, with none still running. -/
theorem boundedExec_bounded_complete (n : Nat) (names : List String) (s : DState)
    (hn : 1 ≤ n) (h : DReach n names s) :
    s.workers.length = n ∧ s.busyCount ≤ n ∧
    (s.allExited → (↑s.done : Multiset String) = ↑names ∧ s.busyCount = 0) := by
  obtain ⟨hlen, hcons, hcp, hex⟩ := dreach_dinv n names s h
  refine ⟨hlen, ?_, ?_⟩
  · calc s.busyCount = (s.workers.filterMap busyItem).length := rfl
      _ ≤ s.workers.length := List.length_filterMap_le _ _
      _ = n := hlen
  · intro hall
    have hne : s.workers ≠ [] := by
      intro h0
      rw [h0] at hlen
      simp at hlen
      omega
    obtain ⟨w0, hw0⟩ := List.exists_mem_of_ne_nil s.workers hne
    have hwex : WStatus.exited ∈ s.workers := (hall w0 hw0) ▸ hw0
    obtain ⟨hc, hq, hp⟩ := hex hwex
    have hbusy : s.busyItems = [] := by
      apply List.filterMap_eq_nil_iff.mpr
      intro a ha
      rw [hall a ha]
      rfl
    constructor
    · have h2 := hcons
      rw [hp, hq, hbusy] at h2
      simpa using h2
    · simp [DState.busyCount, hbusy]

/-- C10 witness: a complete run with one worker and one item, ending in the
all-exited state with the item processed exactly once. -/
theorem boundedExec_bounded_complete_witness :
    (⟨[], [], true, [WStatus.exited], ["a"]⟩ : DState).workers.length = 1 ∧
    (⟨[], [], true, [WStatus.exited], ["a"]⟩ : DState).busyCount ≤ 1 ∧
    ((↑(⟨[], [], true, [WStatus.exited], ["a"]⟩ : DState).done : Multiset String)
        = ↑(["a"] : List String) ∧
      (⟨[], [], true, [WStatus.exited], ["a"]⟩ : DState).busyCount = 0) := by
  have h0 : DReach 1 ["a"] (dinit 1 ["a"]) := DReach.init
  have h1 : DReach 1 ["a"] ⟨[], ["a"], false, [WStatus.idle], []⟩ :=
    DReach.step _ _ h0 (DStep.send _ "a" [] rfl (by decide))
  have h2 : DReach 1 ["a"] ⟨[], ["a"], true, [WStatus.idle], []⟩ :=
    DReach.step _ _ h1 (DStep.close _ rfl rfl)
  have h3 : DReach 1 ["a"] ⟨[], [], true, [WStatus.busy "a"], []⟩ :=
    DReach.step _ _ h2 (DStep.recv _ 0 "a" [] rfl rfl)
  have h4 : DReach 1 ["a"] ⟨[], [], true, [WStatus.idle], ["a"]⟩ :=
    DReach.step _ _ h3 (DStep.finish _ 0 "a" rfl)
  have h5 : DReach 1 ["a"] ⟨[], [], true, [WStatus.exited], ["a"]⟩ :=
    DReach.step _ _ h4 (DStep.wexit _ 0 rfl rfl rfl)
  have h := boundedExec_bounded_complete 1 ["a"] _ (by omega) h5
  exact ⟨h.1, h.2.1, h.2.2 (by decide)⟩

end Parprog
